import Mathlib

/-!
Shallow embedding of `scripts/add_ochibi-chans-converter-tool_version.py`.

The script maintains a VPM repository manifest (a JSON document). Its pure
core is:

* `parse_version` / `_parse_prerelease_identifier`: parse a dot-separated
  numeric version string with optional prerelease suffix into an ordered
  sort key (Python tuples compared lexicographically);
* `add_version`: locate the latest version in the `versions` map of the
  package, clone its entry, rewrite `version` and `url`, insert the clone
  directly after the latest entry, and write the manifest back.

Python strings are modelled as `List Char` (`Str`), which matches Python
string semantics for the ASCII data this script manipulates and keeps every
operation kernel-reducible. Python tuple comparison is lexicographic, so
the version sort key `Tuple[Tuple[int, ...], Tuple[int, Tuple[PrereleaseToken, ...]]]`
is modelled with Mathlib lexicographic orders (`Lex` on products and lists),
and the prerelease token `Tuple[int, Union[int, str]]`, whose first
component is the tag 0 (numeric) or 1 (alphanumeric), is modelled as
`Lex (Nat ⊕ Str)`: comparison of `(0, m)` with `(0, n)` is numeric,
`(1, s)` with `(1, t)` is lexicographic on the strings, and `(0, _)` is
below `(1, _)`, exactly as `Sum.Lex` orders `inl`/`inr`.
-/

/-- Python strings, as lists of characters. -/
abbrev Str := List Char

/-- Python `s.split(sep)` for a one-character separator: `splitOnChar sep s`
splits `s` at every occurrence of `sep`; the empty string yields `[[]]`. -/
def splitOnChar (sep : Char) : Str → List Str
  | [] => [[]]
  | c :: rest =>
    match splitOnChar sep rest with
    | [] => [[]]
    | p :: ps => if c == sep then [] :: p :: ps else (c :: p) :: ps

/-- Python `sep.join(parts)` for a one-character separator. -/
def joinSep (sep : Char) : List Str → Str
  | [] => []
  | [p] => p
  | p :: ps => p ++ sep :: joinSep sep ps

/-- Python `int(s)` on a string of ASCII digits (leading zeros allowed,
they simply do not contribute). -/
def natOfDigits (s : Str) : Nat :=
  s.foldl (fun a c => a * 10 + (c.toNat - 48)) 0

/-- Character class `[0-9A-Za-z-]` of `PRERELEASE_IDENTIFIER_PATTERN`. -/
def isIdChar (c : Char) : Bool :=
  c.isDigit || c.isUpper || c.isLower || c == '-'

/-- Character class `[0-9A-Za-z.-]` of the prerelease group in `SEMVER_PATTERN`. -/
def isPreChar (c : Char) : Bool :=
  isIdChar c || c == '.'

/-- The numeric core group of `SEMVER_PATTERN`, a regex `\d+(\.\d+)*`:
a string of digits and dots matches iff splitting on dots yields only
nonempty all-digit components. -/
def coreOk (core : Str) : Bool :=
  (splitOnChar '.' core).all (fun p => !p.isEmpty && p.all Char.isDigit)

/-- The part of a version string before its first dash (the candidate
numeric core of `SEMVER_PATTERN`). -/
def coreOf (v : Str) : Str :=
  (splitOnChar '-' v).headD []

/-- The part of a version string after its first dash (the candidate
prerelease suffix of `SEMVER_PATTERN`), or `none` if there is no dash. -/
def preOf (v : Str) : Option Str :=
  match splitOnChar '-' v with
  | [] => none
  | [_] => none
  | _ :: rest => some (joinSep '-' rest)

/-- Matching of `SEMVER_PATTERN`: the regex is anchored, the core group
cannot contain a dash, and the optional prerelease group starts at the
first dash, so `v` matches iff the part before the first dash is a valid
numeric core and, when a dash is present, the remainder is a nonempty
string over `[0-9A-Za-z.-]`. Returns the pair of captured groups. -/
def semverSplit (v : Str) : Option (Str × Option Str) :=
  match splitOnChar '-' v with
  | [] => none
  | [core] => if coreOk core then some (core, none) else none
  | core :: rest =>
    let pre := joinSep '-' rest
    if coreOk core && !pre.isEmpty && pre.all isPreChar then
      some (core, some pre)
    else none

/-- The Python prerelease token `Tuple[int, Union[int, str]]`, whose first
component is always 0 (paired with an `int`) or 1 (paired with a `str`):
as an ordered type this is the lexicographic sum `Nat ⊕ Str`. -/
abbrev PrereleaseToken := Lex (Nat ⊕ Str)

/-- The Python sort key
`Tuple[Tuple[int, ...], Tuple[int, Tuple[PrereleaseToken, ...]]]`
with lexicographic tuple comparison. -/
abbrev VersionSortKey := Lex (List Nat × Lex (Nat × List PrereleaseToken))

/-- Constructor for `VersionSortKey` values. -/
def mkKey (core : List Nat) (flag : Nat) (pres : List PrereleaseToken) : VersionSortKey :=
  toLex (core, toLex (flag, pres))

/-- Numeric prerelease token `(0, n)`. -/
def numTok (n : Nat) : PrereleaseToken := toLex (Sum.inl n)

/-- Alphanumeric prerelease token `(1, s)`. -/
def alphaTok (s : Str) : PrereleaseToken := toLex (Sum.inr s)

/-- Translation of `_parse_prerelease_identifier`: rejects the empty
identifier, identifiers with a character outside `[0-9A-Za-z-]`, and
all-digit identifiers with a leading zero; returns `(0, int(identifier))`
for all-digit identifiers and `(1, identifier)` otherwise. -/
def parsePrereleaseIdentifier (ident : Str) : Except String PrereleaseToken :=
  if ident.isEmpty then
    .error "Prerelease identifier must not be empty."
  else if !(ident.all isIdChar) then
    .error ("Invalid prerelease identifier " ++ String.mk ident ++
      ". Only [0-9A-Za-z-] is allowed.")
  else if ident.all Char.isDigit then
    if decide (ident.length > 1) && (ident.headD ' ' == '0') then
      .error ("Invalid numeric prerelease identifier " ++ String.mk ident ++
        ": leading zeroes are not allowed.")
    else .ok (numTok (natOfDigits ident))
  else .ok (alphaTok ident)

/-- Effectful map over a list in the `Except` monad, evaluated left to
right and stopping at the first error, exactly how the Python generator
inside `tuple(...)` raises at the first failing identifier. -/
def mapExcept (f : α → Except ε β) : List α → Except ε (List β)
  | [] => .ok []
  | a :: as =>
    match f a with
    | .error e => .error e
    | .ok b =>
      match mapExcept f as with
      | .error e => .error e
      | .ok bs => .ok (b :: bs)

/-- The error message of `parse_version` for strings rejected by
`SEMVER_PATTERN`. -/
def invalidVersionMsg (version : Str) : String :=
  "Version " ++ String.mk version ++ " is invalid. " ++
    "Use numeric dot notation, optionally with prerelease suffix."

/-- Translation of `parse_version`: match `SEMVER_PATTERN`, convert the
core components with `int`, return `(core, (1, ()))` for stable versions
(so they sort after prerelease entries with the same core) and
`(core, (0, tokens))` when a prerelease suffix is present. -/
def parse_version (version : Str) : Except String VersionSortKey :=
  match semverSplit version with
  | none => .error (invalidVersionMsg version)
  | some (core, none) =>
    .ok (mkKey ((splitOnChar '.' core).map natOfDigits) 1 [])
  | some (core, some pre) =>
    match mapExcept parsePrereleaseIdentifier (splitOnChar '.' pre) with
    | .error e => .error e
    | .ok toks => .ok (mkKey ((splitOnChar '.' core).map natOfDigits) 0 toks)

example : parse_version "0.3.1".data = .ok (mkKey [0, 3, 1] 1 []) := rfl

example : parse_version "0.5.3-beta.1".data =
    .ok (mkKey [0, 5, 3] 0 [alphaTok "beta".data, numTok 1]) := rfl

example : (parse_version "0.5".data).isOk ∧ (parse_version "0.5.3-beta".data).isOk ∧
    (parse_version "".data).isOk = false ∧ (parse_version "1..2".data).isOk = false ∧
    (parse_version "1.2-".data).isOk = false ∧ (parse_version "1.2-a_b".data).isOk = false ∧
    (parse_version "1.2-01".data).isOk = false ∧ (parse_version "-1".data).isOk = false := by
  decide

/-- JSON documents, as loaded by `json.load`: object member lists keep the
textual order, which is the iteration (and dump) order of Python dicts. -/
inductive Json where
  | null
  | bool (b : Bool)
  | num (n : Int)
  | str (s : Str)
  | arr (elems : List Json)
  | obj (fields : List (Str × Json))

/-- Python `d.get(k)` on a JSON object (and `None` on any other value;
the script only ever applies it to objects). -/
def Json.getField : Json → Str → Option Json
  | .obj fields, k => (fields.find? (fun p => p.1 == k)).map Prod.snd
  | _, _ => none

/-- Python `d[k] = v` on a JSON object: overwrite in place when the key is
present (keeping its position), append a new member otherwise. -/
def Json.setField : Json → Str → Json → Json
  | .obj fields, k, v =>
    if fields.any (fun p => p.1 == k) then
      .obj (fields.map (fun p => if p.1 == k then (p.1, v) else p))
    else .obj (fields ++ [(k, v)])
  | j, _, _ => j

/-- Python `x == s` where `x` is `d.get(k)` (possibly `None`) and `s` a
string: true exactly when `x` is a string equal to `s`. -/
def optJsonEqStr : Option Json → Str → Bool
  | some (.str s), t => s == t
  | _, _ => false

/-- Python substring test `pat in s`. -/
def containsSub (s pat : Str) : Bool :=
  match s with
  | [] => pat.isEmpty
  | _ :: rest => pat.isPrefixOf s || containsSub rest pat

/-- Python `s.replace(pat, repl, 1)`: replace the leftmost occurrence of
`pat` in `s` by `repl` (identity when `pat` does not occur). -/
def replaceFirst (s pat repl : Str) : Str :=
  match s with
  | [] => if pat.isEmpty then repl else []
  | c :: rest =>
    if pat.isPrefixOf (c :: rest) then repl ++ (c :: rest).drop pat.length
    else c :: replaceFirst rest pat repl

example : containsSub "https://x/0.3.1/x.zip".data "0.3.1".data = true := by decide
example : containsSub "https://x/0.4.0/x.zip".data "0.3.1".data = false := by decide
example : replaceFirst "a/0.3.1/b0.3.1".data "0.3.1".data "0.3.2".data =
    "a/0.3.2/b0.3.1".data := by decide

/-- Key `"version"` of a version entry. -/
def versionField : Str := "version".data

/-- Key `"url"` of a version entry. -/
def urlField : Str := "url".data

/-- Key `"packages"` of the manifest. -/
def packagesField : Str := "packages".data

/-- Key `"versions"` of a package record. -/
def versionsField : Str := "versions".data

/-- The constant `PACKAGE_ID` of the script. -/
def PACKAGE_ID : Str := "jp.aramaa.ochibi-chans-converter-tool".data

/-- One comparison step of Python `max` with a key function: the current
best is replaced only when the candidate has a strictly greater key, so
the first maximum wins on ties. -/
def maxStep (best q : Str × VersionSortKey) : Str × VersionSortKey :=
  if best.2 < q.2 then q else best

/-- Pairing of a version string with its `parse_version` key, as `max`
with `key=parse_version` evaluates it (propagating a parse failure). -/
def parsePair (k : Str) : Except String (Str × VersionSortKey) :=
  match parse_version k with
  | .error e => .error e
  | .ok kk => .ok (k, kk)

/-- Python `max(keys, key=parse_version)`: evaluates `parse_version` on the
keys in order (raising the first parse failure), fails on an empty
sequence, and returns the first key with the maximal sort key. -/
def maxVersionKey (keys : List Str) : Except String Str :=
  match mapExcept parsePair keys with
  | .error e => .error e
  | .ok [] => .error "max() arg is an empty sequence"
  | .ok (p :: ps) => .ok (ps.foldl maxStep p).1

/-- Lines 135 to 144 of `add_version`: deep-copy the latest entry (pure
values, so the copy is the value itself), overwrite its `version` field,
and when the entry has a string `url` field, require the latest version to
occur in it and replace the first occurrence by the new version. -/
def cloneEntry (latest_entry : Json) (latest_version new_version : Str) :
    Except String Json :=
  match (latest_entry.setField versionField (.str new_version)).getField urlField with
  | some (.str u) =>
    if containsSub u latest_version then
      .ok ((latest_entry.setField versionField (.str new_version)).setField urlField
        (.str (replaceFirst u latest_version new_version)))
    else
      .error ("Latest version " ++ String.mk latest_version ++
        " not found in URL " ++ String.mk u ++ ".")
  | _ => .ok (latest_entry.setField versionField (.str new_version))

/-- Python `next((i for i, (key, e) in enumerate(items) if key == k), default)`
without its default: index of the first pair whose key matches, counting
from `i`. -/
def firstIndexFrom (p : α → Bool) : List α → Nat → Option Nat
  | [], _ => none
  | x :: xs, i => if p x then some i else firstIndexFrom p xs (i + 1)

/-- Python `items.insert(i, x)` on a list (for a nonnegative index; an
index past the end appends). -/
def pyInsert (l : List α) (i : Nat) (x : α) : List α :=
  l.take i ++ x :: l.drop i

/-- One step of Python `dict(items)` construction: a pair with a fresh key
is appended; a pair with an existing key overwrites the value at the
position of the first occurrence. -/
def dictInsert (acc : List (Str × Json)) (kv : Str × Json) : List (Str × Json) :=
  if acc.any (fun p => p.1 == kv.1) then
    acc.map (fun p => if p.1 == kv.1 then (p.1, kv.2) else p)
  else acc ++ [kv]

/-- Python `dict(items)` on a list of key-value pairs. -/
def dictOfPairs (l : List (Str × Json)) : List (Str × Json) :=
  l.foldl dictInsert []

/-- Lines 118 to 152 of `add_version`, acting on the `versions` member list
of the package: validate the new version, reject duplicates, find the
latest version by sort key, check its entry, clone it, and insert the
clone directly after the latest entry. Returns the latest version together
with the new member list. -/
def add_version_core (versions : List (Str × Json)) (new_version : Str) :
    Except String (Str × List (Str × Json)) :=
  match parse_version new_version with
  | .error e => .error e
  | .ok _ =>
    if versions.any (fun p => p.1 == new_version) then
      .error ("Version " ++ String.mk new_version ++ " already exists.")
    else
      match maxVersionKey (versions.map Prod.fst) with
      | .error e => .error e
      | .ok latest_version =>
        match versions.find? (fun p => p.1 == latest_version) with
        | none => .error "internal: latest version not among the keys"
        | some (_, latest_entry) =>
          if optJsonEqStr (latest_entry.getField versionField) latest_version then
            match cloneEntry latest_entry latest_version new_version with
            | .error e => .error e
            | .ok new_entry =>
              let items := versions
              let insert_index :=
                (firstIndexFrom (fun p => p.1 == latest_version) items 0).getD
                  (items.length - 1)
              .ok (latest_version,
                dictOfPairs (pyInsert items (insert_index + 1) (new_version, new_entry)))
          else
            .error ("Latest entry version does not match key " ++
              String.mk latest_version ++ ".")

example :
    add_version_core
      [("0.3.1".data, Json.obj
        [(versionField, Json.str "0.3.1".data),
         (urlField, Json.str "https://x/0.3.1/a.zip".data)])]
      "0.3.2".data =
    .ok ("0.3.1".data,
      [("0.3.1".data, Json.obj
        [(versionField, Json.str "0.3.1".data),
         (urlField, Json.str "https://x/0.3.1/a.zip".data)]),
       ("0.3.2".data, Json.obj
        [(versionField, Json.str "0.3.2".data),
         (urlField, Json.str "https://x/0.3.2/a.zip".data)])]) := rfl

/-- Outcome of `load_json`: the input file may be missing
(`FileNotFoundError`), fail to parse (`json.JSONDecodeError`), or yield a
JSON document. Loading is a pure function of the file contents, so the
document stands in for the bytes of a well-formed input file. -/
inductive LoadResult where
  | missing
  | malformed
  | good (j : Json)

/-- Python `d[k]` subscription on a JSON value: a missing key raises
`KeyError`, which `main` catches; subscripting a non-object raises
`TypeError`, which also aborts the run before any write. -/
def indexJson (j : Json) (k : Str) : Except String Json :=
  match j.getField k with
  | some v => .ok v
  | none => .error ("KeyError: " ++ String.mk k)

/-- View of a JSON value as an object member list; any other shape makes
the script crash on `versions.keys()` before any write. -/
def Json.objFields : Json → Except String (List (Str × Json))
  | .obj fields => .ok fields
  | _ => .error "TypeError: not a JSON object"

/-- Lines 118 to 155 of `add_version` up to (but excluding) `write_json`:
validate the new version (line 120, before the file is read), load the
manifest, extract `data[packages][PACKAGE_ID][versions]`, run the core,
and store the rebuilt member dict back into the manifest. Returns the
manifest that `write_json` will serialize, or the error `main` reports.
The core re-runs `parse_version new_version`; it is pure, so the second
run returns the same result as line 120 and the behaviour is unchanged. -/
def run_add_version (input : LoadResult) (new_version : Str) : Except String Json :=
  match parse_version new_version with
  | .error e => .error e
  | .ok _ =>
    match input with
    | .missing => .error "Input file not found"
    | .malformed => .error "JSONDecodeError: Expecting value"
    | .good data =>
      match indexJson data packagesField with
      | .error e => .error e
      | .ok packages =>
        match indexJson packages PACKAGE_ID with
        | .error e => .error e
        | .ok pkg =>
          match indexJson pkg versionsField with
          | .error e => .error e
          | .ok versionsJ =>
            match versionsJ.objFields with
            | .error e => .error e
            | .ok versions =>
              match add_version_core versions new_version with
              | .error e => .error e
              | .ok r =>
                .ok (data.setField packagesField
                  (packages.setField PACKAGE_ID
                    (pkg.setField versionsField (.obj r.2))))

/-- Indentation: `n` spaces. -/
def spaces (n : Nat) : Str := List.replicate n ' '

/-- JSON string escaping as `json.dump` with `ensure_ascii=False` performs
it for the characters this manifest can contain. -/
def escapeChar (c : Char) : Str :=
  if c == '"' then ['\\', '"']
  else if c == '\\' then ['\\', '\\']
  else if c == '\n' then ['\\', 'n']
  else if c == '\t' then ['\\', 't']
  else if c == '\r' then ['\\', 'r']
  else [c]

/-- Render a JSON string literal. -/
def escapeStr (s : Str) : Str :=
  '"' :: (s.map escapeChar).flatten ++ ['"']

/-- Decimal rendering of an integer. -/
def intRepr (n : Int) : Str := (toString n).data

mutual

/-- Serialization in the format of `json.dump(payload, f, ensure_ascii=False,
indent=4)`: 4-space indentation, members separated by commas and newlines,
`ind` is the current indentation depth. -/
def dumpJson (ind : Nat) : Json → Str
  | .null => "null".data
  | .bool true => "true".data
  | .bool false => "false".data
  | .num n => intRepr n
  | .str s => escapeStr s
  | .arr [] => "[]".data
  | .arr (e :: es) =>
    '[' :: '\n' :: spaces (ind + 4) ++ dumpJson (ind + 4) e ++
      dumpArrRest (ind + 4) es ++ '\n' :: spaces ind ++ [']']
  | .obj [] => "\x7b\x7d".data
  | .obj ((k, v) :: fs) =>
    '\x7b' :: '\n' :: spaces (ind + 4) ++ escapeStr k ++ ':' :: ' ' ::
      dumpJson (ind + 4) v ++ dumpObjRest (ind + 4) fs ++
      '\n' :: spaces ind ++ ['\x7d']

/-- Remaining array elements, each preceded by a comma and a newline. -/
def dumpArrRest (ind : Nat) : List Json → Str
  | [] => []
  | e :: es => ',' :: '\n' :: spaces ind ++ dumpJson ind e ++ dumpArrRest ind es

/-- Remaining object members, each preceded by a comma and a newline. -/
def dumpObjRest (ind : Nat) : List (Str × Json) → Str
  | [] => []
  | (k, v) :: fs =>
    ',' :: '\n' :: spaces ind ++ escapeStr k ++ ':' :: ' ' ::
      dumpJson ind v ++ dumpObjRest ind fs

end

/-- Observable outcome of one invocation of `main`: the contents of the
destination file afterwards, the exit code, and the error messages
printed (via `parser.exit`). -/
structure RunOutcome where
  destContents : Option Str
  exitCode : Nat
  errMessages : List String

/-- The `main` function around `add_version`: on any caught exception it
exits with code 1 and a single `Error:` message, leaving the destination
file as it was (`write_json` is only reached after every check has passed,
and writes atomically via a temporary file and `os.replace`); on success
the destination file holds the serialized manifest followed by a trailing
newline (`temp_handle.write` of a newline after `json.dump`). -/
def main_run (input : LoadResult) (dest : Option Str) (new_version : Str) :
    RunOutcome :=
  match run_add_version input new_version with
  | .ok newData => ⟨some (dumpJson 0 newData ++ ['\n']), 0, []⟩
  | .error e => ⟨dest, 1, ["Error: " ++ e ++ "\n"]⟩

/-! ### Helper lemmas about the embedded operations -/

theorem mapExcept_parsePair_ok :
    ∀ {keys : List Str} {pairs : List (Str × VersionSortKey)},
      mapExcept parsePair keys = .ok pairs →
      pairs.map Prod.fst = keys ∧ ∀ q ∈ pairs, parse_version q.1 = .ok q.2 := by
  intro keys
  induction keys with
  | nil =>
    intro pairs h
    simp only [mapExcept] at h
    cases h
    simp
  | cons k ks ih =>
    intro pairs h
    simp only [mapExcept] at h
    cases hk : parsePair k with
    | error e => rw [hk] at h; cases h
    | ok q =>
      rw [hk] at h
      cases hrest : mapExcept parsePair ks with
      | error e => rw [hrest] at h; cases h
      | ok qs =>
        rw [hrest] at h
        cases h
        obtain ⟨h1, h2⟩ := ih hrest
        have hq : q.1 = k ∧ parse_version k = .ok q.2 := by
          unfold parsePair at hk
          cases hp : parse_version k with
          | error e => rw [hp] at hk; cases hk
          | ok kk =>
            rw [hp] at hk
            cases hk
            refine ⟨rfl, ?_⟩
            rfl
        refine ⟨by simp [hq.1, h1], ?_⟩
        intro r hr
        rcases List.mem_cons.mp hr with rfl | hr
        · rw [hq.1]; exact hq.2
        · exact h2 r hr

theorem mapExcept_error_of_mem {f : α → Except ε β} {x : α} {e : ε} :
    ∀ {l : List α}, x ∈ l → f x = .error e →
      ∃ e₂, mapExcept f l = .error e₂ := by
  intro l
  induction l with
  | nil => intro hx; cases hx
  | cons a as ih =>
    intro hx hfx
    rcases List.mem_cons.mp hx with rfl | hx
    · exact ⟨e, by simp only [mapExcept, hfx]⟩
    · cases hfa : f a with
      | error e₁ => exact ⟨e₁, by simp only [mapExcept, hfa]⟩
      | ok b =>
        obtain ⟨e₂, h₂⟩ := ih hx hfx
        exact ⟨e₂, by simp only [mapExcept, hfa, h₂]⟩

theorem mapExcept_ok_of_forall {f : α → Except ε β} :
    ∀ {l : List α}, (∀ x ∈ l, ∃ y, f x = .ok y) →
      ∃ ys, mapExcept f l = .ok ys := by
  intro l
  induction l with
  | nil => intro _; exact ⟨[], rfl⟩
  | cons a as ih =>
    intro h
    obtain ⟨b, hb⟩ := h a (List.mem_cons_self a as)
    obtain ⟨bs, hbs⟩ := ih (fun x hx => h x (List.mem_cons_of_mem a hx))
    exact ⟨b :: bs, by simp only [mapExcept, hb, hbs]⟩

theorem maxStep_cases (p q : Str × VersionSortKey) :
    (maxStep p q = p ∨ maxStep p q = q) ∧
      p.2 ≤ (maxStep p q).2 ∧ q.2 ≤ (maxStep p q).2 := by
  unfold maxStep
  by_cases h : p.2 < q.2
  · rw [if_pos h]
    exact ⟨Or.inr rfl, le_of_lt h, le_refl _⟩
  · rw [if_neg h]
    exact ⟨Or.inl rfl, le_refl _, le_of_not_lt h⟩

theorem foldl_maxStep_spec :
    ∀ (ps : List (Str × VersionSortKey)) (p : Str × VersionSortKey),
      ps.foldl maxStep p ∈ p :: ps ∧
        ∀ q ∈ p :: ps, q.2 ≤ (ps.foldl maxStep p).2 := by
  intro ps
  induction ps with
  | nil =>
    intro p
    refine ⟨List.mem_cons_self _ _, ?_⟩
    intro q hq
    rcases List.mem_cons.mp hq with rfl | hq
    · exact le_refl _
    · cases hq
  | cons r rs ih =>
    intro p
    rw [List.foldl_cons]
    obtain ⟨hmem, hle⟩ := ih (maxStep p r)
    obtain ⟨hcase, hp, hr⟩ := maxStep_cases p r
    constructor
    · rcases List.mem_cons.mp hmem with hm | hm
      · rcases hcase with hc | hc
        · rw [hm, hc]; exact List.mem_cons_self _ _
        · rw [hm, hc]; exact List.mem_cons_of_mem _ (List.mem_cons_self _ _)
      · exact List.mem_cons_of_mem _ (List.mem_cons_of_mem _ hm)
    · intro q hq
      rcases List.mem_cons.mp hq with rfl | hq
      · exact le_trans hp (hle _ (List.mem_cons_self _ _))
      rcases List.mem_cons.mp hq with rfl | hq
      · exact le_trans hr (hle _ (List.mem_cons_self _ _))
      · exact hle q (List.mem_cons_of_mem _ hq)

theorem maxVersionKey_ok {keys : List Str} {latest : Str} :
    maxVersionKey keys = .ok latest →
      latest ∈ keys ∧ ∃ lk, parse_version latest = .ok lk ∧
        ∀ k ∈ keys, ∃ kk, parse_version k = .ok kk ∧ kk ≤ lk := by
  intro h
  unfold maxVersionKey at h
  cases hm : mapExcept parsePair keys with
  | error e => rw [hm] at h; cases h
  | ok pairs =>
    rw [hm] at h
    obtain ⟨hkeys, hparse⟩ := mapExcept_parsePair_ok hm
    cases pairs with
    | nil => cases h
    | cons p ps =>
      cases h
      obtain ⟨hmem, hle⟩ := foldl_maxStep_spec ps p
      constructor
      · rw [← hkeys]
        exact List.mem_map_of_mem Prod.fst hmem
      · refine ⟨(ps.foldl maxStep p).2, hparse _ hmem, ?_⟩
        intro k hk
        rw [← hkeys] at hk
        obtain ⟨q, hq, rfl⟩ := List.mem_map.mp hk
        exact ⟨q.2, hparse q hq, hle q hq⟩

theorem any_key_false {l : List (Str × Json)} {k : Str} :
    l.any (fun p => p.1 == k) = false ↔ k ∉ l.map Prod.fst := by
  rw [List.any_eq_false]
  constructor
  · intro h hk
    obtain ⟨q, hq, hq1⟩ := List.mem_map.mp hk
    exact h q hq (by simp [hq1])
  · intro h q hq hbeq
    exact h (List.mem_map.mpr ⟨q, hq, by simpa using hbeq⟩)

theorem firstIndexFrom_spec {p : α → Bool} :
    ∀ (pre : List α) (x : α) (post : List α) (i : Nat),
      (∀ y ∈ pre, p y = false) → p x = true →
      firstIndexFrom p (pre ++ x :: post) i = some (i + pre.length) := by
  intro pre
  induction pre with
  | nil =>
    intro x post i _ hx
    simp [firstIndexFrom, hx]
  | cons a pre ih =>
    intro x post i hpre hx
    have ha : p a = false := hpre a (List.mem_cons_self _ _)
    have hstep : firstIndexFrom p ((a :: pre) ++ x :: post) i =
        firstIndexFrom p (pre ++ x :: post) (i + 1) := by
      simp [firstIndexFrom, ha]
    rw [hstep, ih x post (i + 1) (fun y hy => hpre y (List.mem_cons_of_mem _ hy)) hx]
    congr 1
    simp only [List.length_cons]
    omega

theorem pyInsert_cons (a : α) (l : List α) (n : Nat) (y : α) :
    pyInsert (a :: l) (n + 1) y = a :: pyInsert l n y := by
  simp [pyInsert]

theorem pyInsert_after :
    ∀ (pre : List α) (x : α) (post : List α) (y : α),
      pyInsert (pre ++ x :: post) (pre.length + 1) y = pre ++ x :: y :: post := by
  intro pre
  induction pre with
  | nil =>
    intro x post y
    simp [pyInsert]
  | cons a pre ih =>
    intro x post y
    simp only [List.cons_append, List.length_cons]
    rw [pyInsert_cons]
    rw [ih]

theorem dictInsert_fresh {acc : List (Str × Json)} {a : Str × Json}
    (h : a.1 ∉ acc.map Prod.fst) : dictInsert acc a = acc ++ [a] := by
  have hfalse : acc.any (fun p => p.1 == a.1) = false := any_key_false.mpr h
  unfold dictInsert
  rw [hfalse]
  simp

theorem foldl_dictInsert :
    ∀ (l acc : List (Str × Json)), ((acc ++ l).map Prod.fst).Nodup →
      l.foldl dictInsert acc = acc ++ l := by
  intro l
  induction l with
  | nil =>
    intro acc _
    simp
  | cons a rest ih =>
    intro acc h
    have hmap : ((acc.map Prod.fst) ++ ((a :: rest).map Prod.fst)).Nodup := by
      rwa [List.map_append] at h
    have hsplit := List.nodup_append.mp hmap
    have hmemhead : a.1 ∈ (a :: rest).map Prod.fst :=
      List.mem_map_of_mem Prod.fst (List.mem_cons_self a rest)
    have hnotin : a.1 ∉ acc.map Prod.fst := fun hmem =>
      hsplit.2.2 hmem hmemhead
    rw [List.foldl_cons, dictInsert_fresh hnotin,
      ih (acc ++ [a]) (by rw [List.append_assoc]; simpa using h)]
    simp

theorem dictOfPairs_eq_self {l : List (Str × Json)} (h : (l.map Prod.fst).Nodup) :
    dictOfPairs l = l := by
  have hfold := foldl_dictInsert l [] (by simpa using h)
  simpa [dictOfPairs] using hfold

theorem getField_setField_ne (e : Json) (k k2 : Str) (v : Json) (hne : k ≠ k2) :
    (e.setField k v).getField k2 = e.getField k2 := by
  cases e with
  | obj fs =>
    simp only [Json.setField]
    by_cases hany : fs.any (fun p => p.1 == k) = true
    · rw [if_pos hany]
      simp only [Json.getField]
      rw [List.find?_map]
      have hcomp : ((fun p : Str × Json => p.1 == k2) ∘
          (fun p : Str × Json => if p.1 == k then (p.1, v) else p)) =
          (fun p : Str × Json => p.1 == k2) := by
        funext p
        simp only [Function.comp]
        by_cases hp : (p.1 == k) = true
        · rw [if_pos hp]
        · rw [if_neg hp]
      rw [hcomp]
      cases hf : fs.find? (fun p => p.1 == k2) with
      | none => simp
      | some q =>
        have hq : q.1 = k2 := by simpa using List.find?_some hf
        have hqk : (q.1 == k) = false := by
          rw [hq]
          exact beq_eq_false_iff_ne.mpr (Ne.symm hne)
        have hqkne : ¬ q.1 = k := by
          rw [hq]
          exact fun hh => hne hh.symm
        simp [hqk, hqkne]
    · rw [if_neg hany]
      simp only [Json.getField]
      rw [List.find?_append]
      have hsingle : List.find? (fun p : Str × Json => p.1 == k2) [(k, v)] = none := by
        simp [beq_eq_false_iff_ne.mpr hne]
      rw [hsingle]
      simp
  | null => rfl
  | bool b => rfl
  | num n => rfl
  | str s => rfl
  | arr es => rfl

theorem find?_first {pre post : List (Str × Json)} {latest : Str} {e : Json}
    (hpre : ∀ q ∈ pre, q.1 ≠ latest) :
    (pre ++ (latest, e) :: post).find? (fun p => p.1 == latest) = some (latest, e) := by
  induction pre with
  | nil => simp
  | cons a pre ih =>
    have ha : (a.1 == latest) = false :=
      beq_eq_false_iff_ne.mpr (hpre a (List.mem_cons_self _ _))
    rw [List.cons_append, List.find?_cons_of_neg _ (by simp [ha])]
    exact ih (fun q hq => hpre q (List.mem_cons_of_mem _ hq))

theorem nodup_insert_middle {l1 l2 : List Str} {a b : Str}
    (h : (l1 ++ a :: l2).Nodup) (hb : b ∉ l1 ++ a :: l2) :
    (l1 ++ a :: b :: l2).Nodup := by
  rw [List.nodup_append] at h ⊢
  obtain ⟨h1, h2, hdisj⟩ := h
  rw [List.nodup_cons] at h2
  have hbl1 : b ∉ l1 := fun hmem => hb (List.mem_append_left _ hmem)
  have hba : ¬ b = a := fun hmem =>
    hb (List.mem_append_right _ (by simp [hmem]))
  have hbl2 : b ∉ l2 := fun hmem =>
    hb (List.mem_append_right _ (by simp [hmem]))
  refine ⟨h1, ?_, ?_⟩
  · rw [List.nodup_cons, List.nodup_cons]
    refine ⟨?_, hbl2, h2.2⟩
    intro hmem
    rcases List.mem_cons.mp hmem with hmem | hmem
    · exact hba hmem.symm
    · exact h2.1 hmem
  · intro x hx hmem
    rcases List.mem_cons.mp hmem with rfl | hmem
    · exact hdisj hx (List.mem_cons_self _ _)
    rcases List.mem_cons.mp hmem with rfl | hmem
    · exact hbl1 hx
    · exact hdisj hx (List.mem_cons_of_mem _ hmem)

theorem cloneEntry_url {e : Json} {latest nv u : Str}
    (hu : e.getField urlField = some (.str u)) :
    cloneEntry e latest nv =
      (if containsSub u latest then
        .ok ((e.setField versionField (.str nv)).setField urlField
          (.str (replaceFirst u latest nv)))
      else
        .error ("Latest version " ++ String.mk latest ++
          " not found in URL " ++ String.mk u ++ ".")) := by
  have hget : (e.setField versionField (Json.str nv)).getField urlField =
      some (.str u) := by
    rw [getField_setField_ne _ _ _ _ (by decide)]
    exact hu
  unfold cloneEntry
  rw [hget]

theorem add_version_core_ok_of
    {versions : List (Str × Json)} {new_version latest : Str} {e ce : Json}
    {pre post : List (Str × Json)} {vk : VersionSortKey}
    (hnodup : (versions.map Prod.fst).Nodup)
    (hparse : parse_version new_version = .ok vk)
    (hfresh : new_version ∉ versions.map Prod.fst)
    (hmax : maxVersionKey (versions.map Prod.fst) = .ok latest)
    (hdecomp : versions = pre ++ (latest, e) :: post)
    (hpre : ∀ q ∈ pre, q.1 ≠ latest)
    (hver : optJsonEqStr (e.getField versionField) latest = true)
    (hclone : cloneEntry e latest new_version = .ok ce) :
    add_version_core versions new_version =
      .ok (latest, pre ++ (latest, e) :: (new_version, ce) :: post) := by
  have hany : versions.any (fun p => p.1 == new_version) = false :=
    any_key_false.mpr hfresh
  have hfind : versions.find? (fun p => p.1 == latest) = some (latest, e) := by
    rw [hdecomp]
    exact find?_first hpre
  have hidx : firstIndexFrom (fun p => p.1 == latest) versions 0 = some pre.length := by
    rw [hdecomp]
    have := firstIndexFrom_spec pre (latest, e) post 0
      (fun q hq => beq_eq_false_iff_ne.mpr (hpre q hq)) (by simp)
    simpa using this
  have hins : pyInsert versions (pre.length + 1) (new_version, ce) =
      pre ++ (latest, e) :: (new_version, ce) :: post := by
    rw [hdecomp]
    exact pyInsert_after pre (latest, e) post (new_version, ce)
  have hnodup2 :
      ((pre ++ (latest, e) :: (new_version, ce) :: post).map Prod.fst).Nodup := by
    have hmap : (pre ++ (latest, e) :: (new_version, ce) :: post).map Prod.fst =
        pre.map Prod.fst ++ latest :: new_version :: post.map Prod.fst := by
      simp
    rw [hmap]
    apply nodup_insert_middle
    · have hmap2 : (pre ++ (latest, e) :: post).map Prod.fst =
          pre.map Prod.fst ++ latest :: post.map Prod.fst := by
        simp
      rw [hdecomp, hmap2] at hnodup
      exact hnodup
    · have hmap2 : (pre ++ (latest, e) :: post).map Prod.fst =
          pre.map Prod.fst ++ latest :: post.map Prod.fst := by
        simp
      rw [hdecomp, hmap2] at hfresh
      exact hfresh
  simp only [add_version_core, hparse, hany, Bool.false_eq_true, if_false, hmax,
    hfind, hver, if_true, hclone, hidx, Option.getD_some, hins,
    dictOfPairs_eq_self hnodup2]

theorem find?_decomp {p : α → Bool} :
    ∀ {l : List α} {x : α}, l.find? p = some x →
      p x = true ∧ ∃ pre post, l = pre ++ x :: post ∧ ∀ y ∈ pre, p y = false := by
  intro l
  induction l with
  | nil => intro x h; cases h
  | cons a as ih =>
    intro x h
    cases hpa : p a with
    | true =>
      rw [List.find?_cons_of_pos _ hpa] at h
      cases h
      refine ⟨hpa, [], as, rfl, ?_⟩
      intro y hy
      cases hy
    | false =>
      rw [List.find?_cons_of_neg _ (by simp [hpa])] at h
      obtain ⟨hx, pre, post, hdec, hpre⟩ := ih h
      refine ⟨hx, a :: pre, post, by rw [hdec]; rfl, ?_⟩
      intro y hy
      rcases List.mem_cons.mp hy with rfl | hy
      · exact hpa
      · exact hpre y hy

theorem nodup_keys_insert {pre post : List (Str × Json)} {latest nv : Str} {e ce : Json}
    (hnodup : ((pre ++ (latest, e) :: post).map Prod.fst).Nodup)
    (hfresh : nv ∉ (pre ++ (latest, e) :: post).map Prod.fst) :
    ((pre ++ (latest, e) :: (nv, ce) :: post).map Prod.fst).Nodup := by
  have hmap : (pre ++ (latest, e) :: (nv, ce) :: post).map Prod.fst =
      pre.map Prod.fst ++ latest :: nv :: post.map Prod.fst := by simp
  have hmap2 : (pre ++ (latest, e) :: post).map Prod.fst =
      pre.map Prod.fst ++ latest :: post.map Prod.fst := by simp
  rw [hmap]
  rw [hmap2] at hnodup hfresh
  exact nodup_insert_middle hnodup hfresh

theorem add_version_core_ok_elim
    {versions : List (Str × Json)} {new_version latest : Str}
    {out : List (Str × Json)}
    (hnodup : (versions.map Prod.fst).Nodup)
    (h : add_version_core versions new_version = .ok (latest, out)) :
    ∃ (pre post : List (Str × Json)) (e ce : Json) (vk lk : VersionSortKey),
      versions = pre ++ (latest, e) :: post ∧
      (∀ q ∈ pre, q.1 ≠ latest) ∧
      out = pre ++ (latest, e) :: (new_version, ce) :: post ∧
      cloneEntry e latest new_version = .ok ce ∧
      optJsonEqStr (e.getField versionField) latest = true ∧
      parse_version new_version = .ok vk ∧
      new_version ∉ versions.map Prod.fst ∧
      parse_version latest = .ok lk ∧
      ∀ k ∈ versions.map Prod.fst, ∃ kk, parse_version k = .ok kk ∧ kk ≤ lk := by
  unfold add_version_core at h
  split at h
  next er hparse => cases h
  next vk hparse =>
  split at h
  next hany => cases h
  next hany =>
  split at h
  next er hmax => cases h
  next latest2 hmax =>
  split at h
  next hfind => cases h
  next k0 e hfind =>
  split at h
  next hver =>
    split at h
    next er hclone => cases h
    next ce hclone =>
    cases h
    have hany2 : versions.any (fun p => p.1 == new_version) = false :=
      Bool.eq_false_iff.mpr hany
    obtain ⟨hpredq, pre, post, hdecomp, hprefalse⟩ := find?_decomp hfind
    have hk0 : k0 = latest := by simpa using hpredq
    subst hk0
    have hpre : ∀ q ∈ pre, q.1 ≠ k0 := by
      intro q hq
      have hq2 := hprefalse q hq
      simpa using hq2
    have hfresh : new_version ∉ versions.map Prod.fst := any_key_false.mp hany2
    have hidx : firstIndexFrom (fun p => p.1 == k0) versions 0 =
        some pre.length := by
      rw [hdecomp]
      have hspec := firstIndexFrom_spec pre (k0, e) post 0
        (fun q hq => beq_eq_false_iff_ne.mpr (hpre q hq)) (by simp)
      simpa using hspec
    obtain ⟨hmem2, lk, hlk, hbound⟩ := maxVersionKey_ok hmax
    refine ⟨pre, post, e, ce, vk, lk, hdecomp, hpre, ?_, hclone, hver, hparse,
      hfresh, hlk, hbound⟩
    rw [hidx, Option.getD_some, hdecomp, pyInsert_after]
    apply dictOfPairs_eq_self
    apply nodup_keys_insert
    · rw [← hdecomp]; exact hnodup
    · rw [← hdecomp]; exact hfresh
  next hver => cases h

theorem add_version_core_parse_error
    {versions : List (Str × Json)} {new_version : Str} {msg : String}
    (hparse : parse_version new_version = .error msg) :
    add_version_core versions new_version = .error msg := by
  simp only [add_version_core, hparse]

theorem add_version_core_duplicate
    {versions : List (Str × Json)} {new_version : Str} {vk : VersionSortKey}
    (hparse : parse_version new_version = .ok vk)
    (hdup : new_version ∈ versions.map Prod.fst) :
    add_version_core versions new_version =
      .error ("Version " ++ String.mk new_version ++ " already exists.") := by
  have hany : versions.any (fun p => p.1 == new_version) = true := by
    rw [List.any_eq_true]
    obtain ⟨q, hq, hq1⟩ := List.mem_map.mp hdup
    exact ⟨q, hq, by simp [hq1]⟩
  simp only [add_version_core, hparse, hany, if_true]

theorem add_version_core_mismatch
    {versions : List (Str × Json)} {new_version latest : Str} {e : Json}
    {vk : VersionSortKey}
    (hparse : parse_version new_version = .ok vk)
    (hfresh : new_version ∉ versions.map Prod.fst)
    (hmax : maxVersionKey (versions.map Prod.fst) = .ok latest)
    (hfind : versions.find? (fun p => p.1 == latest) = some (latest, e))
    (hver : optJsonEqStr (e.getField versionField) latest = false) :
    add_version_core versions new_version =
      .error ("Latest entry version does not match key " ++
        String.mk latest ++ ".") := by
  have hany : versions.any (fun p => p.1 == new_version) = false :=
    any_key_false.mpr hfresh
  simp only [add_version_core, hparse, hany, Bool.false_eq_true, if_false,
    hmax, hfind, hver]

theorem add_version_core_clone_error
    {versions : List (Str × Json)} {new_version latest : Str} {e : Json}
    {vk : VersionSortKey} {msg : String}
    (hparse : parse_version new_version = .ok vk)
    (hfresh : new_version ∉ versions.map Prod.fst)
    (hmax : maxVersionKey (versions.map Prod.fst) = .ok latest)
    (hfind : versions.find? (fun p => p.1 == latest) = some (latest, e))
    (hver : optJsonEqStr (e.getField versionField) latest = true)
    (hclone : cloneEntry e latest new_version = .error msg) :
    add_version_core versions new_version = .error msg := by
  have hany : versions.any (fun p => p.1 == new_version) = false :=
    any_key_false.mpr hfresh
  simp only [add_version_core, hparse, hany, Bool.false_eq_true, if_false,
    hmax, hfind, hver, if_true, hclone]

/-! ### Claim theorems -/

/-- Entry with only a `version` field, for concrete witness manifests. -/
def entV (v : String) : Json := Json.obj [(versionField, Json.str v.data)]

/-- Entry with a `version` and a `url` field, for concrete witness manifests. -/
def entVU (v u : String) : Json :=
  Json.obj [(versionField, Json.str v.data), (urlField, Json.str u.data)]

/-- C1: whenever `add_version` succeeds on a versions map with distinct keys,
the output map consists of every pre-existing (key, entry) pair unchanged and
in its original relative order, with the single new entry inserted
immediately after the entry whose key is the latest version, where the
latest version is a maximum of the existing keys under the `parse_version`
comparator; in particular the new entry is not appended at the end when the
latest entry is not last. -/
theorem C1_insert_after_latest
    {versions out : List (Str × Json)} {new_version latest : Str}
    (hnodup : (versions.map Prod.fst).Nodup)
    (h : add_version_core versions new_version = .ok (latest, out)) :
    ∃ (pre post : List (Str × Json)) (e ce : Json),
      versions = pre ++ (latest, e) :: post ∧
      out = pre ++ (latest, e) :: (new_version, ce) :: post ∧
      ∃ lk, parse_version latest = .ok lk ∧
        ∀ k ∈ versions.map Prod.fst, ∃ kk, parse_version k = .ok kk ∧ kk ≤ lk := by
  obtain ⟨pre, post, e, ce, vk, lk, h1, h2, h3, h4, h5, h6, h7, h8, h9⟩ :=
    add_version_core_ok_elim hnodup h
  exact ⟨pre, post, e, ce, h1, h3, lk, h8, h9⟩

/-- Witness for C1 at a concrete manifest in which the latest version
(0.2.0) is listed first, so the new entry 0.1.5 lands in the middle of the
map, not at its end. -/
theorem C1_insert_after_latest_witness :
    ∃ (pre post : List (Str × Json)) (e ce : Json),
      [("0.2.0".data, entV "0.2.0"), ("0.1.0".data, entV "0.1.0")] =
        pre ++ ("0.2.0".data, e) :: post ∧
      [("0.2.0".data, entV "0.2.0"), ("0.1.5".data, entV "0.1.5"),
        ("0.1.0".data, entV "0.1.0")] =
        pre ++ ("0.2.0".data, e) :: ("0.1.5".data, ce) :: post ∧
      ∃ lk, parse_version "0.2.0".data = .ok lk ∧
        ∀ k ∈ ([("0.2.0".data, entV "0.2.0"),
            ("0.1.0".data, entV "0.1.0")].map Prod.fst),
          ∃ kk, parse_version k = .ok kk ∧ kk ≤ lk :=
  C1_insert_after_latest (by decide) rfl

/-- C10: `add_version` places no ordering requirement on the new version
relative to the existing ones: under the success preconditions (valid fresh
version, parseable keys, latest entry consistent, url check passing) the
operation succeeds and inserts the clone of the maximum entry right after
it, with no hypothesis relating the new key to the existing keys. -/
theorem C10_no_order_requirement
    {versions : List (Str × Json)} {new_version latest : Str} {e ce : Json}
    {pre post : List (Str × Json)} {vk : VersionSortKey}
    (hnodup : (versions.map Prod.fst).Nodup)
    (hparse : parse_version new_version = .ok vk)
    (hfresh : new_version ∉ versions.map Prod.fst)
    (hmax : maxVersionKey (versions.map Prod.fst) = .ok latest)
    (hdecomp : versions = pre ++ (latest, e) :: post)
    (hpre : ∀ q ∈ pre, q.1 ≠ latest)
    (hver : optJsonEqStr (e.getField versionField) latest = true)
    (hclone : cloneEntry e latest new_version = .ok ce) :
    add_version_core versions new_version =
      .ok (latest, pre ++ (latest, e) :: (new_version, ce) :: post) :=
  add_version_core_ok_of hnodup hparse hfresh hmax hdecomp hpre hver hclone

/-- Witness for C10: adding 0.0.1 to a manifest whose only version is 1.0.0
succeeds although the new version sorts strictly below every existing one,
and the new entry is the clone of the 1.0.0 entry inserted after it. -/
theorem C10_no_order_requirement_witness :
    mkKey [0, 0, 1] 1 [] < mkKey [1, 0, 0] 1 [] ∧
    add_version_core [("1.0.0".data, entV "1.0.0")] "0.0.1".data =
      .ok ("1.0.0".data,
        [("1.0.0".data, entV "1.0.0"), ("0.0.1".data, entV "0.0.1")]) :=
  ⟨by decide,
    @C10_no_order_requirement [("1.0.0".data, entV "1.0.0")] "0.0.1".data
      "1.0.0".data (entV "1.0.0") (entV "0.0.1") [] [] (mkKey [0, 0, 1] 1 [])
      (by decide) rfl (by decide) rfl rfl (by simp) rfl rfl⟩

/-- C2: when the latest entry has a string `url` field, a successful
`add_version` produces as new entry the deep copy of the latest entry with
`version` overwritten by the new version and `url` rewritten by replacing
only the first occurrence of the latest version string by the new one; and
when the latest version does not occur in the `url`, `add_version` fails
instead of producing an entry. -/
theorem C2_url_substitution
    {versions : List (Str × Json)} {new_version latest : Str} {e : Json}
    {pre post : List (Str × Json)} {vk : VersionSortKey} {u : Str}
    (hnodup : (versions.map Prod.fst).Nodup)
    (hparse : parse_version new_version = .ok vk)
    (hfresh : new_version ∉ versions.map Prod.fst)
    (hmax : maxVersionKey (versions.map Prod.fst) = .ok latest)
    (hdecomp : versions = pre ++ (latest, e) :: post)
    (hpre : ∀ q ∈ pre, q.1 ≠ latest)
    (hver : optJsonEqStr (e.getField versionField) latest = true)
    (hurl : e.getField urlField = some (.str u)) :
    (containsSub u latest = true →
      add_version_core versions new_version =
        .ok (latest, pre ++ (latest, e) ::
          (new_version,
            (e.setField versionField (.str new_version)).setField urlField
              (.str (replaceFirst u latest new_version))) :: post)) ∧
    (containsSub u latest = false →
      ∃ msg, add_version_core versions new_version = .error msg) := by
  constructor
  · intro hc
    apply add_version_core_ok_of hnodup hparse hfresh hmax hdecomp hpre hver
    rw [cloneEntry_url hurl, if_pos hc]
  · intro hc
    have hfind : versions.find? (fun p => p.1 == latest) = some (latest, e) := by
      rw [hdecomp]
      exact find?_first hpre
    have hclone : cloneEntry e latest new_version =
        .error ("Latest version " ++ String.mk latest ++
          " not found in URL " ++ String.mk u ++ ".") := by
      rw [cloneEntry_url hurl, if_neg (by simp [hc])]
    exact ⟨_, add_version_core_clone_error hparse hfresh hmax hfind hver hclone⟩

/-- Witness for C2 at the example of the specification: cloning the entry
of 0.3.1 for new version 0.3.2 rewrites the URL path segment, and a url
without the latest version makes the operation fail. -/
theorem C2_url_substitution_witness :
    add_version_core
      [("0.3.1".data, entVU "0.3.1" "https://example.com/releases/0.3.1/x.zip")]
      "0.3.2".data =
      .ok ("0.3.1".data,
        [("0.3.1".data, entVU "0.3.1" "https://example.com/releases/0.3.1/x.zip"),
         ("0.3.2".data, entVU "0.3.2" "https://example.com/releases/0.3.2/x.zip")]) ∧
    (∃ msg, add_version_core
      [("9.9.9".data, entVU "9.9.9" "https://example.com/releases/other.zip")]
      "0.3.2".data = .error msg) :=
  ⟨(@C2_url_substitution
      [("0.3.1".data, entVU "0.3.1" "https://example.com/releases/0.3.1/x.zip")]
      "0.3.2".data "0.3.1".data
      (entVU "0.3.1" "https://example.com/releases/0.3.1/x.zip") [] []
      (mkKey [0, 3, 2] 1 []) "https://example.com/releases/0.3.1/x.zip".data
      (by decide) rfl (by decide) rfl rfl (by simp) rfl rfl).1 rfl,
   (@C2_url_substitution
      [("9.9.9".data, entVU "9.9.9" "https://example.com/releases/other.zip")]
      "0.3.2".data "9.9.9".data
      (entVU "9.9.9" "https://example.com/releases/other.zip") [] []
      (mkKey [0, 3, 2] 1 []) "https://example.com/releases/other.zip".data
      (by decide) rfl (by decide) rfl rfl (by simp) rfl rfl).2 (by decide)⟩

/-- C3 counterexample: the claim says a version string that is already a key
always fails with the already-exists error, but `add_version` validates the
version syntax first (line 120), so the invalid string `x`, although it is
a key of the manifest, fails with the invalid-version error instead. -/
theorem C3_counterexample :
    add_version_core [("x".data, entV "x")] "x".data =
      .error ("Version x is invalid. " ++
        "Use numeric dot notation, optionally with prerelease suffix.") ∧
    ("Version x is invalid. Use numeric dot notation, optionally with prerelease suffix." : String) ≠
      "Version x already exists." :=
  ⟨rfl, by decide⟩

/-- C3 amended: for every manifest and syntactically valid version string v
that is already a key, `add_version` fails with the already-exists error;
consequently, running `add_version` twice with the same version (the second
run reading the output of the first) succeeds the first time and fails the
second time with the already-exists error. -/
theorem C3_duplicate_rejected
    {versions : List (Str × Json)} {v : Str} :
    (∀ vk, parse_version v = .ok vk → v ∈ versions.map Prod.fst →
      add_version_core versions v =
        .error ("Version " ++ String.mk v ++ " already exists.")) ∧
    (∀ latest out, (versions.map Prod.fst).Nodup →
      add_version_core versions v = .ok (latest, out) →
      add_version_core out v =
        .error ("Version " ++ String.mk v ++ " already exists.")) := by
  constructor
  · intro vk hp hm
    exact add_version_core_duplicate hp hm
  · intro latest out hnodup h
    obtain ⟨pre, post, e, ce, vk, lk, h1, h2, h3, h4, h5, h6, h7, h8, h9⟩ :=
      add_version_core_ok_elim hnodup h
    apply add_version_core_duplicate h6
    have hmemp : (v, ce) ∈ pre ++ (latest, e) :: (v, ce) :: post :=
      List.mem_append_right _ (List.mem_cons_of_mem _ (List.mem_cons_self _ _))
    have hmem := List.mem_map_of_mem Prod.fst hmemp
    rw [h3]
    exact hmem

/-- Witness for C3: with the single-entry manifest at 0.1.0, adding 0.2.0
succeeds, and adding 0.2.0 again on the resulting map fails with the
already-exists error; a manifest that already lists 0.2.0 fails at once. -/
theorem C3_duplicate_rejected_witness :
    add_version_core [("0.1.0".data, entV "0.1.0"), ("0.2.0".data, entV "0.2.0")]
      "0.2.0".data = .error ("Version 0.2.0 already exists.") ∧
    add_version_core [("0.1.0".data, entV "0.1.0"), ("0.2.0".data, entV "0.2.0")]
      "0.2.0".data = .error ("Version 0.2.0 already exists.") ∧
    add_version_core [("0.1.0".data, entV "0.1.0")] "0.2.0".data =
      .ok ("0.1.0".data, [("0.1.0".data, entV "0.1.0"), ("0.2.0".data, entV "0.2.0")]) :=
  ⟨(@C3_duplicate_rejected [("0.1.0".data, entV "0.1.0"), ("0.2.0".data, entV "0.2.0")]
      "0.2.0".data).1 (mkKey [0, 2, 0] 1 []) rfl (by decide),
   (@C3_duplicate_rejected [("0.1.0".data, entV "0.1.0")] "0.2.0".data).2
      "0.1.0".data [("0.1.0".data, entV "0.1.0"), ("0.2.0".data, entV "0.2.0")]
      (by decide) rfl,
   rfl⟩

theorem run_add_version_good_error
    {data packages pkg : Json} {versions : List (Str × Json)} {v : Str}
    {vk : VersionSortKey} {msg : String}
    (hparse : parse_version v = .ok vk)
    (h1 : data.getField packagesField = some packages)
    (h2 : packages.getField PACKAGE_ID = some pkg)
    (h3 : pkg.getField versionsField = some (Json.obj versions))
    (hcore : add_version_core versions v = .error msg) :
    run_add_version (.good data) v = .error msg := by
  simp only [run_add_version, hparse, indexJson, h1, h2, h3, Json.objFields, hcore]

theorem run_add_version_good_ok
    {data packages pkg : Json} {versions : List (Str × Json)} {v latest : Str}
    {vk : VersionSortKey} {out : List (Str × Json)}
    (hparse : parse_version v = .ok vk)
    (h1 : data.getField packagesField = some packages)
    (h2 : packages.getField PACKAGE_ID = some pkg)
    (h3 : pkg.getField versionsField = some (Json.obj versions))
    (hcore : add_version_core versions v = .ok (latest, out)) :
    run_add_version (.good data) v =
      .ok (data.setField packagesField
        (packages.setField PACKAGE_ID
          (pkg.setField versionsField (.obj out)))) := by
  simp only [run_add_version, hparse, indexJson, h1, h2, h3, Json.objFields, hcore]

theorem run_add_version_missing {v : Str} {vk : VersionSortKey}
    (hparse : parse_version v = .ok vk) :
    run_add_version .missing v = .error "Input file not found" := by
  simp only [run_add_version, hparse]

/-- C6: every failing run exits with code 1, prints a single error message,
and leaves the destination file exactly as it was: the serialized output is
produced only on the success path, after all validations. -/
theorem C6_failure_leaves_destination
    {input : LoadResult} {dest : Option Str} {v : Str} {msg : String}
    (h : run_add_version input v = .error msg) :
    main_run input dest v =
      ⟨dest, 1, ["Error: " ++ msg ++ "\n"]⟩ := by
  simp only [main_run, h]

/-- Witness for C6: a run against a missing input file exits 1 with one
message and leaves the destination contents (here, the string old) intact. -/
theorem C6_failure_leaves_destination_witness :
    main_run .missing (some "old".data) "1.0.0".data =
      ⟨some "old".data, 1, ["Error: " ++ "Input file not found" ++ "\n"]⟩ :=
  C6_failure_leaves_destination (@run_add_version_missing "1.0.0".data (mkKey [1, 0, 0] 1 []) rfl)

/-- C9: `add_version` is deterministic: two runs on the same loaded input
and the same version string produce the same outcome, in particular
byte-for-byte identical destination file contents. -/
theorem C9_deterministic
    {input : LoadResult} {dest : Option Str} {v : Str} {o1 o2 : RunOutcome}
    (h1 : main_run input dest v = o1) (h2 : main_run input dest v = o2) :
    o1 = o2 :=
  h1.symm.trans h2

/-- Witness for C9 at a concrete run. -/
theorem C9_deterministic_witness :
    main_run .missing none "1.0.0".data = main_run .missing none "1.0.0".data :=
  C9_deterministic rfl rfl

/-- Manifest whose non-latest entry 0.1.0 carries a mismatched `version`
field, while the latest entry 0.2.0 is consistent. -/
def c5data : Json :=
  Json.obj [(packagesField,
    Json.obj [(PACKAGE_ID,
      Json.obj [(versionsField, Json.obj
        [("0.1.0".data, entV "WRONG"), ("0.2.0".data, entV "0.2.0")])])])]

/-- The manifest `add_version` writes for `c5data` and new version 0.3.0. -/
def c5out : Json :=
  Json.obj [(packagesField,
    Json.obj [(PACKAGE_ID,
      Json.obj [(versionsField, Json.obj
        [("0.1.0".data, entV "WRONG"), ("0.2.0".data, entV "0.2.0"),
         ("0.3.0".data, entV "0.3.0")])])])]

/-- C5 counterexample: the claim says every manifest containing an entry
whose key differs from its `version` field is rejected before any write,
but the code checks only the latest entry (line 130): on `c5data`, whose
entry at key 0.1.0 has version field WRONG, the run succeeds and produces
an output manifest (with the mismatched entry still in it). -/
theorem C5_counterexample :
    optJsonEqStr ((entV "WRONG").getField versionField) "0.1.0".data = false ∧
    run_add_version (.good c5data) "0.3.0".data = .ok c5out ∧
    (main_run (.good c5data) (some "old".data) "0.3.0".data).exitCode = 0 ∧
    (main_run (.good c5data) (some "old".data) "0.3.0".data).destContents ≠
      some "old".data := by
  refine ⟨rfl, rfl, rfl, ?_⟩
  intro h
  have h2 : (main_run (.good c5data) (some "old".data) "0.3.0".data).destContents =
      some (dumpJson 0 c5out ++ ['\n']) := by
    unfold main_run
    rw [show run_add_version (.good c5data) "0.3.0".data = .ok c5out from rfl]
  rw [h2] at h
  have h3 : dumpJson 0 c5out ++ ['\n'] = "old".data := by
    injection h
  have h4 := congrArg List.getLast? h3
  rw [List.getLast?_concat] at h4
  have h7 : ("old".data : Str).getLast? = some 'd' := rfl
  rw [h7] at h4
  injection h4 with h8
  exact absurd h8 (by decide)

/-- C5 amended: the key/version consistency check covers only the entry of
the latest version: when the latest entry of the source manifest has a
`version` field that differs from its key, `add_version` rejects the
manifest with the mismatch error, exits 1, and the destination file is left
untouched (no write is performed); mismatches in non-latest entries are not
detected. -/
theorem C5_latest_mismatch_rejected
    {data packages pkg : Json} {versions : List (Str × Json)}
    {v latest : Str} {e : Json} {vk : VersionSortKey} {dest : Option Str}
    (hparse : parse_version v = .ok vk)
    (h1 : data.getField packagesField = some packages)
    (h2 : packages.getField PACKAGE_ID = some pkg)
    (h3 : pkg.getField versionsField = some (Json.obj versions))
    (hfresh : v ∉ versions.map Prod.fst)
    (hmax : maxVersionKey (versions.map Prod.fst) = .ok latest)
    (hfind : versions.find? (fun p => p.1 == latest) = some (latest, e))
    (hver : optJsonEqStr (e.getField versionField) latest = false) :
    main_run (.good data) dest v =
      ⟨dest, 1, ["Error: " ++ ("Latest entry version does not match key " ++
        String.mk latest ++ ".") ++ "\n"]⟩ := by
  have hcore := add_version_core_mismatch hparse hfresh hmax hfind hver
  have hrun := run_add_version_good_error hparse h1 h2 h3 hcore
  simp only [main_run, hrun]

/-- Witness for C5 amended: a manifest whose only (hence latest) entry has
key 0.2.0 but version field WRONG is rejected with the mismatch error and
the destination keeps its old contents. -/
theorem C5_latest_mismatch_rejected_witness :
    main_run
      (.good (Json.obj [(packagesField,
        Json.obj [(PACKAGE_ID,
          Json.obj [(versionsField,
            Json.obj [("0.2.0".data, entV "WRONG")])])])]))
      (some "old".data) "0.3.0".data =
      ⟨some "old".data, 1, ["Error: " ++ ("Latest entry version does not match key " ++
        String.mk "0.2.0".data ++ ".") ++ "\n"]⟩ :=
  @C5_latest_mismatch_rejected
    (Json.obj [(packagesField,
      Json.obj [(PACKAGE_ID,
        Json.obj [(versionsField, Json.obj [("0.2.0".data, entV "WRONG")])])])])
    (Json.obj [(PACKAGE_ID,
      Json.obj [(versionsField, Json.obj [("0.2.0".data, entV "WRONG")])])])
    (Json.obj [(versionsField, Json.obj [("0.2.0".data, entV "WRONG")])])
    [("0.2.0".data, entV "WRONG")]
    "0.3.0".data "0.2.0".data (entV "WRONG") (mkKey [0, 3, 0] 1 [])
    (some "old".data)
    rfl rfl rfl rfl (by decide) rfl rfl rfl

theorem digit_isIdChar {c : Char} (h : c.isDigit = true) : isIdChar c = true := by
  unfold isIdChar
  rw [h]
  rfl

theorem all_digit_all_idChar {s : Str} (h : s.all Char.isDigit = true) :
    s.all isIdChar = true := by
  rw [List.all_eq_true] at h ⊢
  intro c hc
  exact digit_isIdChar (h c hc)

theorem parseId_digits {s : Str} {t : PrereleaseToken}
    (hd : s.all Char.isDigit = true)
    (h : parsePrereleaseIdentifier s = .ok t) : t = numTok (natOfDigits s) := by
  unfold parsePrereleaseIdentifier at h
  by_cases h0 : s.isEmpty = true
  · rw [if_pos h0] at h
    cases h
  · rw [if_neg h0] at h
    have hid : s.all isIdChar = true := all_digit_all_idChar hd
    rw [hid] at h
    rw [if_neg (by decide)] at h
    rw [hd, if_pos rfl] at h
    by_cases hlz : (decide (s.length > 1) && (s.headD ' ' == '0')) = true
    · rw [if_pos hlz] at h
      cases h
    · rw [if_neg hlz] at h
      cases h
      rfl

theorem parseId_alpha {s : Str} {t : PrereleaseToken}
    (hd : s.all Char.isDigit = false)
    (h : parsePrereleaseIdentifier s = .ok t) : t = alphaTok s := by
  unfold parsePrereleaseIdentifier at h
  by_cases h0 : s.isEmpty = true
  · rw [if_pos h0] at h
    cases h
  · rw [if_neg h0] at h
    by_cases hid : s.all isIdChar = true
    · rw [hid] at h
      rw [if_neg (by decide)] at h
      rw [hd] at h
      rw [if_neg (by decide)] at h
      cases h
      rfl
    · have hid2 : s.all isIdChar = false := Bool.eq_false_iff.mpr hid
      rw [hid2] at h
      rw [if_pos (by decide)] at h
      cases h

/-- C4: under the `parse_version` comparator, a stable version compares
strictly greater than a prerelease version with the same numeric core; and
for prerelease identifiers, two all-digit identifiers compare by their
numeric value, two non-numeric identifiers compare lexically, and every
numeric identifier compares below every non-numeric identifier, per
standard semantic-version precedence. -/
theorem C4_precedence :
    (∀ (a b : Str) (c : List Nat) (ts : List PrereleaseToken),
      parse_version a = .ok (mkKey c 1 []) →
      parse_version b = .ok (mkKey c 0 ts) →
      mkKey c 0 ts < mkKey c 1 []) ∧
    (∀ (s t : Str) (x y : PrereleaseToken),
      parsePrereleaseIdentifier s = .ok x →
      parsePrereleaseIdentifier t = .ok y →
      s.all Char.isDigit = true → t.all Char.isDigit = true →
      (x < y ↔ natOfDigits s < natOfDigits t)) ∧
    (∀ (s t : Str) (x y : PrereleaseToken),
      parsePrereleaseIdentifier s = .ok x →
      parsePrereleaseIdentifier t = .ok y →
      s.all Char.isDigit = false → t.all Char.isDigit = false →
      (x < y ↔ s < t)) ∧
    (∀ (s t : Str) (x y : PrereleaseToken),
      parsePrereleaseIdentifier s = .ok x →
      parsePrereleaseIdentifier t = .ok y →
      s.all Char.isDigit = true → t.all Char.isDigit = false →
      x < y) := by
  refine ⟨?_, ?_, ?_, ?_⟩
  · intro a b c ts _ _
    unfold mkKey
    rw [Prod.Lex.lt_iff]
    right
    refine ⟨rfl, ?_⟩
    rw [Prod.Lex.lt_iff]
    left
    exact Nat.zero_lt_one
  · intro s t x y hs ht hds hdt
    rw [parseId_digits hds hs, parseId_digits hdt ht]
    exact Sum.Lex.inl_lt_inl_iff
  · intro s t x y hs ht hds hdt
    rw [parseId_alpha hds hs, parseId_alpha hdt ht]
    exact Sum.Lex.inr_lt_inr_iff
  · intro s t x y hs ht hds hdt
    rw [parseId_digits hds hs, parseId_alpha hdt ht]
    exact Sum.Lex.inl_lt_inr _ _

/-- Witness for C4: 1.0.0-alpha sorts below 1.0.0; numeric identifiers 2
and 10 compare as numbers; alpha and beta compare lexically; the numeric
identifier 11 sorts below the non-numeric identifier 2a. -/
theorem C4_precedence_witness :
    mkKey [1, 0, 0] 0 [alphaTok "alpha".data] < mkKey [1, 0, 0] 1 [] ∧
    (numTok 2 < numTok 10 ↔ (2 : Nat) < 10) ∧
    (alphaTok "alpha".data < alphaTok "beta".data ↔ "alpha".data < "beta".data) ∧
    numTok 11 < alphaTok "2a".data :=
  ⟨C4_precedence.1 "1.0.0".data "1.0.0-alpha".data [1, 0, 0]
      [alphaTok "alpha".data] rfl rfl,
   C4_precedence.2.1 "2".data "10".data (numTok 2) (numTok 10) rfl rfl rfl rfl,
   C4_precedence.2.2.1 "alpha".data "beta".data (alphaTok "alpha".data)
      (alphaTok "beta".data) rfl rfl rfl rfl,
   C4_precedence.2.2.2 "11".data "2a".data (numTok 11) (alphaTok "2a".data)
      rfl rfl rfl rfl⟩

theorem splitOnChar_ne_nil (sep : Char) (s : Str) : splitOnChar sep s ≠ [] := by
  cases s with
  | nil => simp [splitOnChar]
  | cons a rest =>
    cases hsp : splitOnChar sep rest with
    | nil => simp [splitOnChar, hsp]
    | cons p ps =>
      by_cases ha : (a == sep) = true
      · simp [splitOnChar, hsp, ha]
      · simp [splitOnChar, hsp, ha]

theorem splitOnChar_cons_eq (sep a : Char) (rest : Str) {p : Str} {ps : List Str}
    (hsp : splitOnChar sep rest = p :: ps) :
    splitOnChar sep (a :: rest) =
      if a == sep then [] :: p :: ps else (a :: p) :: ps := by
  simp only [splitOnChar, hsp]

theorem splitOnChar_chars {sep : Char} :
    ∀ {s : Str} {c : Char}, c ∈ s → c = sep ∨ ∃ p ∈ splitOnChar sep s, c ∈ p := by
  intro s
  induction s with
  | nil => intro c hc; cases hc
  | cons a rest ih =>
    intro c hc
    cases hsp : splitOnChar sep rest with
    | nil => exact absurd hsp (splitOnChar_ne_nil sep rest)
    | cons p ps =>
      have heq := splitOnChar_cons_eq sep a rest hsp
      rcases List.mem_cons.mp hc with rfl | hc2
      · by_cases ha : (c == sep) = true
        · left
          simpa using ha
        · right
          rw [heq, if_neg ha]
          exact ⟨c :: p, List.mem_cons_self _ _, List.mem_cons_self _ _⟩
      · rcases ih hc2 with hceq | ⟨q, hq, hcq⟩
        · left
          exact hceq
        · rw [hsp] at hq
          by_cases ha : (a == sep) = true
          · right
            rw [heq, if_pos ha]
            exact ⟨q, List.mem_cons_of_mem _ hq, hcq⟩
          · right
            rw [heq, if_neg ha]
            rcases List.mem_cons.mp hq with rfl | hq2
            · exact ⟨a :: q, List.mem_cons_self _ _, List.mem_cons_of_mem _ hcq⟩
            · exact ⟨q, List.mem_cons_of_mem _ hq2, hcq⟩

/-- Valid prerelease identifier in the sense of the specification: nonempty,
over `[0-9A-Za-z-]`, and an all-digit identifier has no leading zero. -/
def validIdent (ident : Str) : Bool :=
  !ident.isEmpty && ident.all isIdChar &&
    (!(ident.all Char.isDigit) || ident.length == 1 || !(ident.headD ' ' == '0'))

/-- Valid semantic-version string in the sense of the specification: a
dot-separated numeric core, optionally followed by a dash and a
dot-separated list of valid prerelease identifiers. -/
def validVersion (v : Str) : Bool :=
  match splitOnChar '-' v with
  | [] => false
  | [core] => coreOk core
  | core :: rest =>
    coreOk core && (splitOnChar '.' (joinSep '-' rest)).all validIdent

theorem validIdent_parses {i : Str} (h : validIdent i = true) :
    ∃ t, parsePrereleaseIdentifier i = .ok t := by
  unfold validIdent at h
  rw [Bool.and_eq_true, Bool.and_eq_true] at h
  obtain ⟨⟨hne, hid⟩, hlz⟩ := h
  have hne2 : i.isEmpty = false := by
    cases hh : i.isEmpty
    · rfl
    · rw [hh] at hne
      cases hne
  unfold parsePrereleaseIdentifier
  rw [hne2, if_neg (by decide), hid, if_neg (by decide)]
  by_cases hd : i.all Char.isDigit = true
  · rw [hd, if_pos rfl]
    have hlzf : (decide (i.length > 1) && (i.headD ' ' == '0')) = false := by
      rw [hd] at hlz
      simp only [Bool.not_true, Bool.false_or, Bool.or_eq_true] at hlz
      rcases hlz with h1 | h2
      · have hlen : i.length = 1 := by simpa using h1
        rw [hlen]
        rfl
      · have hh : (i.headD ' ' == '0') = false := by
          cases hh2 : (i.headD ' ' == '0')
          · rfl
          · rw [hh2] at h2
            cases h2
        rw [hh, Bool.and_false]
    rw [if_neg (by rw [hlzf]; decide)]
    exact ⟨_, rfl⟩
  · have hd2 : i.all Char.isDigit = false := Bool.eq_false_iff.mpr hd
    rw [hd2, if_neg (by decide)]
    exact ⟨_, rfl⟩

/-- C8: parsing is total on valid semantic-version strings, and the order
induced by comparing `parse_version` keys is transitive. -/
theorem C8_total_and_transitive :
    (∀ v : Str, validVersion v = true → ∃ k, parse_version v = .ok k) ∧
    (∀ (a b c : Str) (ka kb kc : VersionSortKey),
      parse_version a = .ok ka → parse_version b = .ok kb →
      parse_version c = .ok kc → ka < kb → kb < kc → ka < kc) := by
  constructor
  · intro v hv
    cases hsp : splitOnChar '-' v with
    | nil => exact absurd hsp (splitOnChar_ne_nil '-' v)
    | cons core rest =>
      cases rest with
      | nil =>
        simp only [validVersion, hsp] at hv
        refine ⟨mkKey ((splitOnChar '.' core).map natOfDigits) 1 [], ?_⟩
        simp only [parse_version, semverSplit, hsp, hv, if_true]
      | cons r2 rest2 =>
        simp only [validVersion, hsp, Bool.and_eq_true] at hv
        obtain ⟨hcore, hall⟩ := hv
        have hpne : (joinSep '-' (r2 :: rest2)).isEmpty = false := by
          cases hp0 : joinSep '-' (r2 :: rest2) with
          | nil =>
            rw [hp0] at hall
            simp [splitOnChar, validIdent] at hall
          | cons x xs => rfl
        have hpall : (joinSep '-' (r2 :: rest2)).all isPreChar = true := by
          rw [List.all_eq_true]
          intro c hc
          rcases @splitOnChar_chars '.' (joinSep '-' (r2 :: rest2)) c hc with
            rfl | ⟨p, hp, hcp⟩
          · decide
          · have hvp := (List.all_eq_true.mp hall) p hp
            unfold validIdent at hvp
            rw [Bool.and_eq_true, Bool.and_eq_true] at hvp
            have hcid := (List.all_eq_true.mp hvp.1.2) c hcp
            unfold isPreChar
            rw [hcid]
            rfl
        have hsem : semverSplit v = some (core, some (joinSep '-' (r2 :: rest2))) := by
          simp only [semverSplit, hsp, hcore, hpne, hpall, Bool.not_false,
            Bool.and_true, Bool.true_and, if_true]
        have hidents : ∀ i ∈ splitOnChar '.' (joinSep '-' (r2 :: rest2)),
            ∃ t, parsePrereleaseIdentifier i = .ok t := fun i hi =>
          validIdent_parses ((List.all_eq_true.mp hall) i hi)
        obtain ⟨toks, htoks⟩ := mapExcept_ok_of_forall hidents
        refine ⟨mkKey ((splitOnChar '.' core).map natOfDigits) 0 toks, ?_⟩
        simp only [parse_version, hsem, htoks]
  · intro a b c ka kb kc _ _ _ h1 h2
    exact lt_trans h1 h2

/-- Witness for C8: the valid string 1.0.0-alpha.1 parses, and transitivity
holds on the concrete chain 0.9.0 below 1.0.0-rc.1 below 1.0.0. -/
theorem C8_total_and_transitive_witness :
    (∃ k, parse_version "1.0.0-alpha.1".data = .ok k) ∧
    mkKey [0, 9, 0] 1 [] < mkKey [1, 0, 0] 1 [] :=
  ⟨C8_total_and_transitive.1 "1.0.0-alpha.1".data (by decide),
   C8_total_and_transitive.2 "0.9.0".data "1.0.0-rc.1".data "1.0.0".data
     (mkKey [0, 9, 0] 1 []) (mkKey [1, 0, 0] 0 [alphaTok "rc".data, numTok 1])
     (mkKey [1, 0, 0] 1 []) rfl rfl rfl (by decide) (by decide)⟩

theorem parse_version_error_of_bad_core {v : Str}
    (h : coreOk (coreOf v) = false) : ∃ msg, parse_version v = .error msg := by
  cases hsp : splitOnChar '-' v with
  | nil => exact absurd hsp (splitOnChar_ne_nil '-' v)
  | cons core rest =>
    have hc : coreOf v = core := by
      unfold coreOf
      rw [hsp]
      rfl
    rw [hc] at h
    refine ⟨invalidVersionMsg v, ?_⟩
    cases rest with
    | nil =>
      simp only [parse_version, semverSplit, hsp, h, Bool.false_eq_true, if_false]
    | cons r2 rest2 =>
      simp only [parse_version, semverSplit, hsp, h, Bool.false_and,
        Bool.false_eq_true, if_false]

theorem parseId_error_empty_or_charset {ident : Str}
    (h : ident.isEmpty = true ∨ ident.all isIdChar = false) :
    ∃ m, parsePrereleaseIdentifier ident = .error m := by
  by_cases h0 : ident.isEmpty = true
  · refine ⟨"Prerelease identifier must not be empty.", ?_⟩
    simp [parsePrereleaseIdentifier, h0]
  · rcases h with h | h
    · exact absurd h h0
    · refine ⟨"Invalid prerelease identifier " ++ String.mk ident ++
        ". Only [0-9A-Za-z-] is allowed.", ?_⟩
      simp [parsePrereleaseIdentifier, h0, h]

theorem parseId_error_leading_zero {ident : Str}
    (hd : ident.all Char.isDigit = true) (hlen : 1 < ident.length)
    (hhead : ident.headD ' ' = '0') :
    ∃ m, parsePrereleaseIdentifier ident = .error m := by
  have h0 : ident.isEmpty = false := by
    cases ident with
    | nil => simp at hlen
    | cons a l => rfl
  have hid := all_digit_all_idChar hd
  have hcond : (decide (ident.length > 1) && (ident.headD ' ' == '0')) = true := by
    rw [Bool.and_eq_true]
    constructor
    · simpa using hlen
    · simpa using hhead
  refine ⟨"Invalid numeric prerelease identifier " ++ String.mk ident ++
    ": leading zeroes are not allowed.", ?_⟩
  simp [parsePrereleaseIdentifier, h0, hid, hd, hcond]
  refine ⟨hlen, ?_⟩
  simpa using hhead

theorem parse_version_error_of_bad_ident {v pre ident : Str}
    (hpre : preOf v = some pre)
    (hmem : ident ∈ splitOnChar '.' pre)
    (hbad : ∃ m, parsePrereleaseIdentifier ident = .error m) :
    ∃ msg, parse_version v = .error msg := by
  cases hsp : splitOnChar '-' v with
  | nil => exact absurd hsp (splitOnChar_ne_nil '-' v)
  | cons core rest =>
    cases rest with
    | nil =>
      unfold preOf at hpre
      rw [hsp] at hpre
      cases hpre
    | cons r2 rest2 =>
      unfold preOf at hpre
      rw [hsp] at hpre
      have hpre2 : joinSep '-' (r2 :: rest2) = pre := by
        injection hpre
      subst hpre2
      obtain ⟨m, hm⟩ := hbad
      by_cases hok : (coreOk core && !(joinSep '-' (r2 :: rest2)).isEmpty &&
          (joinSep '-' (r2 :: rest2)).all isPreChar) = true
      · obtain ⟨e2, he2⟩ := mapExcept_error_of_mem hmem hm
        refine ⟨e2, ?_⟩
        simp only [parse_version, semverSplit, hsp, hok, if_true, he2]
      · refine ⟨invalidVersionMsg v, ?_⟩
        simp only [parse_version, semverSplit, hsp]
        rw [if_neg hok]

/-- C7 counterexample: the claim says every string with a leading zero in a
numeric component is rejected, but the core regex `\d+(\.\d+)*` accepts
leading zeros in core components: both 01 and 1.02.3 parse successfully
(the components parse by numeric value). -/
theorem C7_counterexample :
    parse_version "01".data = .ok (mkKey [1] 1 []) ∧
    parse_version "1.02.3".data = .ok (mkKey [1, 2, 3] 1 []) :=
  ⟨rfl, rfl⟩

/-- C7 amended: `parse_version` fails on every string whose core (the part
before the first dash) has an empty or non-numeric dot-component, on every
string whose prerelease suffix has an empty identifier or one with a
character outside `[0-9A-Za-z-]`, and on every string whose prerelease
suffix has an all-digit identifier of length at least two starting with a
zero; leading zeros in core components, however, are accepted. -/
theorem C7_parse_failures :
    (∀ v : Str, coreOk (coreOf v) = false → ∃ msg, parse_version v = .error msg) ∧
    (∀ v pre ident : Str, preOf v = some pre → ident ∈ splitOnChar '.' pre →
      (ident.isEmpty = true ∨ ident.all isIdChar = false) →
      ∃ msg, parse_version v = .error msg) ∧
    (∀ v pre ident : Str, preOf v = some pre → ident ∈ splitOnChar '.' pre →
      ident.all Char.isDigit = true → 1 < ident.length → ident.headD ' ' = '0' →
      ∃ msg, parse_version v = .error msg) := by
  refine ⟨?_, ?_, ?_⟩
  · intro v hv
    exact parse_version_error_of_bad_core hv
  · intro v pre ident h1 h2 h3
    exact parse_version_error_of_bad_ident h1 h2 (parseId_error_empty_or_charset h3)
  · intro v pre ident h1 h2 h3 h4 h5
    exact parse_version_error_of_bad_ident h1 h2 (parseId_error_leading_zero h3 h4 h5)

/-- Witness for C7 amended: 1..2 has an empty core component, 1.0-a..b has
an empty prerelease identifier, and 1.0-01 has a numeric prerelease
identifier with a leading zero; all three fail to parse. -/
theorem C7_parse_failures_witness :
    (∃ msg, parse_version "1..2".data = .error msg) ∧
    (∃ msg, parse_version "1.0-a..b".data = .error msg) ∧
    (∃ msg, parse_version "1.0-01".data = .error msg) :=
  ⟨C7_parse_failures.1 "1..2".data (by decide),
   C7_parse_failures.2.1 "1.0-a..b".data "a..b".data "".data rfl (by decide)
     (Or.inl rfl),
   C7_parse_failures.2.2 "1.0-01".data "01".data "01".data rfl (by decide)
     rfl (by decide) rfl⟩
